import Mathlib

/-!
Verification development for the accountingmvp reconciliation core:
a shallow embedding in Lean 4 of the normalization pipeline, data
validator, field matchers, confidence scorer and reconciliation engine
from `src/accountingmvp/src`, together with theorems settling the
behavioural claims made by the specification.

Modelling conventions:
* Python `float`/`Decimal` arithmetic is embedded as exact rational
  arithmetic over `ℚ` (the scores contain no rounding-sensitive logic);
  `Decimal` values keep their coefficient and scale in the `Dec`
  structure because `str(Decimal)` (used in fingerprinting) preserves
  trailing zeros.
* Python sets are embedded as duplicate-free `List String` values with
  membership-guarded insertion; only membership and size are ever used.
* Python dicts are embedded as association lists; the engine only ever
  inserts and looks up, and a front insertion shadows older bindings
  exactly like a dict overwrite does for lookups.
* Fallible Python code is embedded with `Option`/`Except`.
-/

unseal Rat.add Rat.mul Rat.sub Rat.inv

namespace AccountingMVP

/-- Fixed-point decimal, modelling Python `decimal.Decimal` for the plain
fixed-point literals produced by this code base: `mant` is the signed
coefficient and `scale` the number of fractional digits. -/
structure Dec where
  mant : Int
  scale : Nat
deriving DecidableEq, Repr

/-- Numeric value of a decimal. -/
def Dec.val (d : Dec) : ℚ := (d.mant : ℚ) / ((10 : ℚ) ^ d.scale)

/-- Left-pad the decimal digits of `n` with zeros to width `w`. -/
def natPad (n : Nat) (w : Nat) : String :=
  let s := toString n
  String.mk (List.replicate (w - s.length) '0') ++ s

/-- `str(Decimal)` for plain fixed-point values: sign, integer digits and,
for a positive scale, a point followed by `scale` fractional digits. -/
def Dec.toStr (d : Dec) : String :=
  let sign := if d.mant < 0 then "-" else ""
  let coeff := d.mant.natAbs
  if d.scale = 0 then sign ++ toString coeff
  else
    let ds := (toString coeff).data
    let padded := List.replicate (d.scale + 1 - ds.length) '0' ++ ds
    let n := padded.length
    sign ++ String.mk (padded.take (n - d.scale)) ++ "." ++
      String.mk (padded.drop (n - d.scale))

/-- Calendar date (proleptic Gregorian), as Python `datetime.date`. -/
structure Date where
  year : Nat
  month : Nat
  day : Nat
deriving DecidableEq, Repr

/-- Gregorian leap-year test. -/
def Date.isLeap (y : Nat) : Bool := y % 4 == 0 && (y % 100 != 0 || y % 400 == 0)

/-- Cumulative day counts before each month in a non-leap year. -/
def monthOffsets : List Nat := [0, 31, 59, 90, 120, 151, 181, 212, 243, 273, 304, 334]

/-- Proleptic-Gregorian ordinal of a date (Python `date.toordinal`):
day 1 is 0001-01-01.  Used only through differences of ordinals, which is
what `(d1 - d2).days` computes. -/
def Date.toOrdinal (d : Date) : Int :=
  let y : Int := (d.year : Int) - 1
  365 * y + y / 4 - y / 100 + y / 400
    + (monthOffsets.getD (d.month - 1) 0 : Int)
    + (if Date.isLeap d.year && decide (2 < d.month) then 1 else 0)
    + (d.day : Int)

/-- `date.isoformat()`: zero-padded `YYYY-MM-DD`. -/
def Date.isoformat (d : Date) : String :=
  natPad d.year 4 ++ "-" ++ natPad d.month 2 ++ "-" ++ natPad d.day 2

/-- `RawTransaction`: a row exactly as parsed from a source file. -/
structure RawTransaction where
  raw_date : String
  raw_amount : String
  raw_reference : String
  description : String
  source_file : String
  line_number : Nat
deriving DecidableEq, Repr

/-- Provenance metadata attached by the normalizer. -/
structure Metadata where
  source_file : String
  line_number : Nat
deriving DecidableEq, Repr

/-- `NormalizedTransaction`: the canonical immutable record. -/
structure NormalizedTransaction where
  id : String
  transaction_date : Date
  amount : Dec
  reference : String
  description : String
  source : String
  currency : String := "USD"
  metadata : Metadata := ⟨"", 0⟩
deriving DecidableEq, Repr

/-- Python `str.strip()` on a character list: drop leading and trailing
whitespace. -/
def trimChars (cs : List Char) : List Char :=
  ((cs.dropWhile Char.isWhitespace).reverse.dropWhile Char.isWhitespace).reverse

/-- Python `str.strip()`. -/
def pyStrip (s : String) : String := String.mk (trimChars s.data)

/-- Python `str.upper()` restricted to ASCII, as used on references. -/
def strUpper (s : String) : String := String.mk (s.data.map Char.toUpper)

/-- Split a character list on `-` separators (`acc` is the current field,
reversed). -/
def splitDashAux : List Char → List Char → List (List Char)
  | [], acc => [acc.reverse]
  | '-' :: rest, acc => acc.reverse :: splitDashAux rest []
  | c :: rest, acc => splitDashAux rest (c :: acc)

namespace SHA256

/-- Truncate to a 32-bit word. -/
def w32 (n : Nat) : Nat := n % 4294967296

/-- Right rotation of a 32-bit word. -/
def rotr (x n : Nat) : Nat := w32 ((x >>> n) ||| (x <<< (32 - n)))

/-- Round constants (FIPS 180-4 §4.2.2, written in decimal). -/
def K : List Nat :=
  [1116352408, 1899447441, 3049323471, 3921009573, 961987163,
   1508970993, 2453635748, 2870763221, 3624381080, 310598401,
   607225278, 1426881987, 1925078388, 2162078206, 2614888103,
   3248222580, 3835390401, 4022224774, 264347078, 604807628,
   770255983, 1249150122, 1555081692, 1996064986, 2554220882,
   2821834349, 2952996808, 3210313671, 3336571891, 3584528711,
   113926993, 338241895, 666307205, 773529912, 1294757372,
   1396182291, 1695183700, 1986661051, 2177026350, 2456956037,
   2730485921, 2820302411, 3259730800, 3345764771, 3516065817,
   3600352804, 4094571909, 275423344, 430227734, 506948616,
   659060556, 883997877, 958139571, 1322822218, 1537002063,
   1747873779, 1955562222, 2024104815, 2227730452, 2361852424,
   2428436474, 2756734187, 3204031479, 3329325298]

/-- Initial hash state (FIPS 180-4 §5.3.3, written in decimal). -/
def H0 : List Nat :=
  [1779033703, 3144134277, 1013904242, 2773480762,
   1359893119, 2600822924, 528734635, 1541459225]

/-- UTF-8 encoding of one code point (Python `str.encode()`). -/
def utf8Bytes (c : Char) : List Nat :=
  let n := c.toNat
  if n < 0x80 then [n]
  else if n < 0x800 then
    [0xC0 ||| (n >>> 6), 0x80 ||| (n &&& 0x3F)]
  else if n < 0x10000 then
    [0xE0 ||| (n >>> 12), 0x80 ||| ((n >>> 6) &&& 0x3F), 0x80 ||| (n &&& 0x3F)]
  else
    [0xF0 ||| (n >>> 18), 0x80 ||| ((n >>> 12) &&& 0x3F),
     0x80 ||| ((n >>> 6) &&& 0x3F), 0x80 ||| (n &&& 0x3F)]

/-- UTF-8 bytes of a string. -/
def strBytes (s : String) : List Nat := (s.data.map utf8Bytes).flatten

/-- Big-endian byte representation of `n`, `k` bytes wide. -/
def bytesBE (k : Nat) (n : Nat) : List Nat :=
  (List.range k).map (fun i => (n >>> (8 * (k - 1 - i))) &&& 0xFF)

/-- SHA-256 message padding to a multiple of 64 bytes. -/
def pad (msg : List Nat) : List Nat :=
  let len := msg.length
  let zeros := (64 - (len + 9) % 64) % 64
  msg ++ [0x80] ++ List.replicate zeros 0 ++ bytesBE 8 (8 * len)

/-- Pack bytes into big-endian 32-bit words. -/
def toWords : List Nat → List Nat
  | a :: b :: c :: d :: rest =>
    ((((a <<< 8) ||| b) <<< 8 ||| c) <<< 8 ||| d) :: toWords rest
  | _ => []

def smallSigma0 (x : Nat) : Nat := (rotr x 7) ^^^ (rotr x 18) ^^^ (x >>> 3)

def smallSigma1 (x : Nat) : Nat := (rotr x 17) ^^^ (rotr x 19) ^^^ (x >>> 10)

def bigSigma0 (x : Nat) : Nat := (rotr x 2) ^^^ (rotr x 13) ^^^ (rotr x 22)

def bigSigma1 (x : Nat) : Nat := (rotr x 6) ^^^ (rotr x 11) ^^^ (rotr x 25)

/-- Extend the 16 block words to the 64-entry message schedule. -/
def extend (ws : List Nat) : List Nat :=
  (List.range 48).foldl
    (fun ws _ =>
      let n := ws.length
      ws ++ [w32 (smallSigma1 (ws.getD (n - 2) 0) + ws.getD (n - 7) 0 +
                  smallSigma0 (ws.getD (n - 15) 0) + ws.getD (n - 16) 0)])
    ws

/-- One compression round over the running state `[a,b,c,d,e,f,g,h]`. -/
def round (st : List Nat) (kw : Nat × Nat) : List Nat :=
  match st with
  | [a, b, c, d, e, f, g, h] =>
    let ch := (e &&& f) ^^^ ((0xFFFFFFFF ^^^ e) &&& g)
    let maj := (a &&& b) ^^^ (a &&& c) ^^^ (b &&& c)
    let t1 := w32 (h + bigSigma1 e + ch + kw.1 + kw.2)
    let t2 := w32 (bigSigma0 a + maj)
    [w32 (t1 + t2), a, b, c, w32 (d + t1), e, f, g]
  | st => st

/-- Compress one 64-byte block into the hash state. -/
def compress (hs : List Nat) (block : List Nat) : List Nat :=
  let ws := extend (toWords block)
  let fin := (K.zip ws).foldl round hs
  (hs.zip fin).map (fun p => w32 (p.1 + p.2))

/-- Split a padded message into its 64-byte blocks. -/
def blockList (bs : List Nat) : List (List Nat) :=
  (List.range (bs.length / 64)).map (fun i => ((bs.drop (64 * i)).take 64))

/-- The eight 32-bit words of the SHA-256 digest. -/
def sha256words (msg : List Nat) : List Nat :=
  (blockList (pad msg)).foldl compress H0

/-- Lowercase hex characters of the digest. -/
def hexChars (words : List Nat) : List Char :=
  (words.map (fun wd =>
    (List.range 8).map (fun i => Nat.digitChar ((wd >>> (4 * (7 - i))) &&& 0xF)))).flatten

/-- `hashlib.sha256(s.encode()).hexdigest()[:16]`. -/
def sha256hex16 (s : String) : String :=
  String.mk ((hexChars (sha256words (strBytes s))).take 16)

end SHA256

namespace NormalizationPipeline

/-- Characters scrubbed from a raw amount string by `_parse_amount`
(currency symbols, spaces and thousands separators). -/
def isScrubbed (c : Char) : Bool :=
  c == '$' || c == '£' || c == '€' || c == ' ' || c == ','

/-- Accumulate decimal digits into a natural number. -/
def digitsToNat (ds : List Char) : Nat :=
  ds.foldl (fun n c => n * 10 + (c.toNat - '0'.toNat)) 0

/-- `Decimal(clean)` for the plain fixed-point literals reaching it here:
an optional sign, decimal digits and at most one point (stdlib
`decimal.Decimal`, external to the repository, embedded for these forms;
anything else is a parse failure). -/
def decOfChars (chars : List Char) : Option Dec :=
  let signed : Bool × List Char :=
    match chars with
    | '-' :: r => (true, r)
    | '+' :: r => (false, r)
    | r => (false, r)
  let neg := signed.1
  let rest := signed.2
  if rest.all (fun c => c.isDigit || c == '.')
      && (rest.filter (fun c => c == '.')).length ≤ 1
      && 1 ≤ (rest.filter Char.isDigit).length then
    let intPart := rest.takeWhile (fun c => c ≠ '.')
    let fracPart := (rest.dropWhile (fun c => c ≠ '.')).drop 1
    let coeff := digitsToNat (intPart ++ fracPart)
    some ⟨if neg then -(coeff : Int) else (coeff : Int), fracPart.length⟩
  else none

/-- `NormalizationPipeline._parse_amount`: strip surrounding whitespace,
remove currency symbols, spaces and commas, turn a fully parenthesized
value into a negated one, then parse as a decimal. -/
def parse_amount (amount_str : String) : Option Dec :=
  let clean := (trimChars amount_str.data).filter (fun c => !(isScrubbed c))
  let clean :=
    if clean.headD ' ' == '(' && clean.getLastD ' ' == ')' then
      '-' :: (clean.drop 1).dropLast
    else clean
  decOfChars clean

/-- `NormalizationPipeline._clean_reference`: trim, upper-case, remove
internal spaces. -/
def clean_reference (ref : String) : String :=
  String.mk (((trimChars ref.data).map Char.toUpper).filter (fun c => c ≠ ' '))

/-- Modelled from the spec: `_parse_date` delegates to
`dateutil.parser.parse` (an external library doing locale-aware,
day-first-preferring lenient parsing); it is embedded here for the ISO
`YYYY-MM-DD` form this development exercises, and every other input is
treated as a parse failure. -/
def parse_date (date_str : String) : Option Date :=
  match splitDashAux (trimChars date_str.data) [] with
  | [y, m, d] =>
    if y.length == 4 && y.all Char.isDigit
        && 1 ≤ m.length && m.length ≤ 2 && m.all Char.isDigit
        && 1 ≤ d.length && d.length ≤ 2 && d.all Char.isDigit then
      let yn := digitsToNat y
      let mn := digitsToNat m
      let dn := digitsToNat d
      if 1 ≤ mn && mn ≤ 12 && 1 ≤ dn && dn ≤ 31 then some ⟨yn, mn, dn⟩ else none
    else none
  | _ => none

/-- `NormalizationPipeline._generate_id`: first 16 hex characters of the
SHA-256 of the pipe-joined canonical content. -/
def generate_id (txn_date : Date) (amount : Dec) (reference description : String) :
    String :=
  SHA256.sha256hex16
    (txn_date.isoformat ++ "|" ++ amount.toStr ++ "|" ++ reference ++ "|" ++ description)

/-- `NormalizationPipeline._normalize_single`: parse the date and the
amount (failing rows yield `none`), clean the reference, fingerprint, and
build the canonical record. -/
def normalize_single (source : String) (raw : RawTransaction) :
    Option NormalizedTransaction :=
  match parse_date raw.raw_date with
  | none => none
  | some txn_date =>
    match parse_amount raw.raw_amount with
    | none => none
    | some amount =>
      let reference := clean_reference raw.raw_reference
      let txn_id := generate_id txn_date amount reference raw.description
      some { id := txn_id, transaction_date := txn_date, amount := amount,
             reference := reference, description := pyStrip raw.description,
             source := source,
             metadata := ⟨raw.source_file, raw.line_number⟩ }

/-- The loop body of `NormalizationPipeline.process`: a row failing to
normalize is skipped, an already-seen fingerprint is skipped, and a new
row is emitted and its fingerprint recorded. -/
def process_step (source : String) (acc : List NormalizedTransaction × List String)
    (raw : RawTransaction) : List NormalizedTransaction × List String :=
  match normalize_single source raw with
  | none => acc
  | some txn =>
    if txn.id ∈ acc.2 then acc else (acc.1 ++ [txn], txn.id :: acc.2)

/-- `NormalizationPipeline.process`.  The seen-hash set is instance state
in the source (`self._seen_hashes`), so it is threaded explicitly: the
call receives the set as it stands and returns it updated. -/
def process (source : String) (seen_hashes : List String)
    (raw_transactions : List RawTransaction) :
    List NormalizedTransaction × List String :=
  raw_transactions.foldl (process_step source) ([], seen_hashes)

end NormalizationPipeline

/-- `DataValidator`'s accumulated report entries (`self.errors`,
`self.warnings`), threaded explicitly as instance state. -/
structure ValidatorState where
  errors : List (String × String)
  warnings : List (String × String)
deriving DecidableEq, Repr

namespace DataValidator

def MAX_AMOUNT : ℚ := 1000000000

def MIN_DATE_YEAR : Nat := 2000

/-- `DataValidator._validate_single`: returns the validity flag and the
state with any error/warning entries appended, in source order (zero
amount, amount limit, date, empty description). -/
def validate_single (st : ValidatorState) (txn : NormalizedTransaction) :
    Bool × ValidatorState :=
  let warnZero : List (String × String) :=
    if txn.amount.val = 0 then [(txn.id, "Zero amount transaction")] else []
  let errAmount : List (String × String) :=
    if MAX_AMOUNT < |txn.amount.val| then
      [(txn.id, "Amount exceeds limit: " ++ txn.amount.toStr)] else []
  let errDate : List (String × String) :=
    if txn.transaction_date.year < MIN_DATE_YEAR then
      [(txn.id, "Date too old: " ++ txn.transaction_date.isoformat)] else []
  let warnDesc : List (String × String) :=
    if pyStrip txn.description = "" then [(txn.id, "Empty description")] else []
  (errAmount.isEmpty && errDate.isEmpty,
   ⟨st.errors ++ (errAmount ++ errDate), st.warnings ++ (warnZero ++ warnDesc)⟩)

/-- The loop body of `validate_batch`: route the transaction into the
valid or invalid list according to `_validate_single`. -/
def validate_step
    (acc : (List NormalizedTransaction × List NormalizedTransaction) × ValidatorState)
    (txn : NormalizedTransaction) :
    (List NormalizedTransaction × List NormalizedTransaction) × ValidatorState :=
  let r := validate_single acc.2 txn
  if r.1 then ((acc.1.1 ++ [txn], acc.1.2), r.2)
  else ((acc.1.1, acc.1.2 ++ [txn]), r.2)

/-- `DataValidator.validate_batch`: partition into `(valid, invalid)`
preserving order, accumulating report entries onto the instance state. -/
def validate_batch (st : ValidatorState) (transactions : List NormalizedTransaction) :
    (List NormalizedTransaction × List NormalizedTransaction) × ValidatorState :=
  transactions.foldl validate_step (([], []), st)

/-- The dictionary returned by `DataValidator.get_report`. -/
structure Report where
  total_errors : Nat
  total_warnings : Nat
  errors : List (String × String)
  warnings : List (String × String)
deriving DecidableEq, Repr

/-- `DataValidator.get_report`: totals plus the first 50 entries of each
accumulated list. -/
def get_report (st : ValidatorState) : Report :=
  ⟨st.errors.length, st.warnings.length, st.errors.take 50, st.warnings.take 50⟩

end DataValidator

namespace AmountMatcher

/-- `AmountMatcher.score`: compare absolute amounts; exact equality, a
zero guard, a percentage-tolerance tier (checked first), an
absolute-tolerance tier, a linear falloff below 10% relative difference,
then zero.  Defaults: `percentage_tolerance = 0.02`,
`absolute_tolerance = 0.01`. -/
def score (percentage_tolerance absolute_tolerance : ℚ)
    (txn1 txn2 : NormalizedTransaction) : ℚ :=
  let amt1 := |txn1.amount.val|
  let amt2 := |txn2.amount.val|
  if amt1 = amt2 then 1
  else if amt1 = 0 ∨ amt2 = 0 then 0
  else
    let diff := |amt1 - amt2|
    let avg := (amt1 + amt2) / 2
    let pct_diff := diff / avg
    if pct_diff ≤ percentage_tolerance then
      1 - pct_diff / percentage_tolerance * (1 / 10)
    else if diff ≤ absolute_tolerance then 95 / 100
    else if pct_diff < 1 / 10 then max (1 / 2) (1 - pct_diff)
    else 0

end AmountMatcher

/-!
Text similarity.  `FuzzyTextMatcher` delegates its four measures to the
external `rapidfuzz` library; the spec describes them as (a) normalized
edit-distance similarity over the full strings, (b) best contiguous
substring-alignment similarity, (c) sorted-word-sequence similarity and
(d) token-set similarity.  They are modelled from the spec below as
executable functions; the matcher's own combination logic is embedded
from the source.
-/

/-- One DP row step for the longest common subsequence: walks the second
word and the previous row together, carrying the entry just computed. -/
def lcsRowAux (c : Char) : List Char → List Nat → Nat → List Nat
  | b :: bs, p0 :: rest, q =>
    let p1 := rest.headD 0
    let q2 := if c == b then p0 + 1 else max q p1
    q2 :: lcsRowAux c bs rest q2
  | _, _, _ => []

/-- Length of the longest common subsequence (row-by-row DP). -/
def lcsLen (a b : List Char) : Nat :=
  (a.foldl (fun row c => 0 :: lcsRowAux c b row 0)
      (List.replicate (b.length + 1) 0)).getLastD 0

/-- Modelled from the spec: normalized edit-distance (indel) similarity
over the full strings, `2·lcs/(|a|+|b|)`. -/
def indelSim (a b : List Char) : ℚ :=
  if a.length + b.length = 0 then 1
  else (2 * (lcsLen a b : ℚ)) / ((a.length : ℚ) + (b.length : ℚ))

/-- Modelled from the spec: best contiguous-fragment similarity — the
best `indelSim` of the shorter string against any window of the longer
string of the same length. -/
def fragmentSim (a b : List Char) : ℚ :=
  let s := if a.length ≤ b.length then a else b
  let l := if a.length ≤ b.length then b else a
  if s.length = 0 then (if l.length = 0 then 1 else 0)
  else
    ((List.range (l.length - s.length + 1)).map
      (fun i => indelSim s ((l.drop i).take s.length))).foldl max 0

/-- Whitespace tokenization (Python `str.split()`): runs of non-blank
characters, empties dropped. -/
def splitWSAux : List Char → List Char → List String
  | [], acc => if acc.isEmpty then [] else [String.mk acc.reverse]
  | c :: rest, acc =>
    if c.isWhitespace then
      if acc.isEmpty then splitWSAux rest []
      else String.mk acc.reverse :: splitWSAux rest []
    else splitWSAux rest (c :: acc)

/-- Lexicographic comparison of character lists (Python string order). -/
def charsLe : List Char → List Char → Bool
  | [], _ => true
  | _ :: _, [] => false
  | a :: as, b :: bs => if a = b then charsLe as bs else decide (a < b)

/-- Insert into a sorted list of strings. -/
def insertSorted (x : String) : List String → List String
  | [] => [x]
  | y :: ys => if charsLe x.data y.data then x :: y :: ys else y :: insertSorted x ys

/-- Stable ascending sort of strings (Python `sorted`). -/
def sortStrs (l : List String) : List String := l.foldr insertSorted []

/-- Join words with single spaces, as a character list. -/
def joinSpace : List String → List Char
  | [] => []
  | [t] => t.data
  | t :: ts => t.data ++ ' ' :: joinSpace ts

/-- First-occurrence deduplication of a word list. -/
def dedup (l : List String) : List String :=
  l.foldl (fun acc x => if x ∈ acc then acc else acc ++ [x]) []

/-- Modelled from the spec: order-independent word-sequence similarity —
`indelSim` of the space-joined, alphabetically sorted token sequences. -/
def tokenSortSim (a b : List Char) : ℚ :=
  indelSim (joinSpace (sortStrs (splitWSAux a [])))
    (joinSpace (sortStrs (splitWSAux b [])))

/-- Modelled from the spec: token-set similarity, tolerant of duplicated
and reordered words — compares the sorted common tokens against each
side's sorted token set and takes the best. -/
def tokenSetSim (a b : List Char) : ℚ :=
  let ta := dedup (splitWSAux a [])
  let tb := dedup (splitWSAux b [])
  let inter := sortStrs (ta.filter (fun x => x ∈ tb))
  let d1 := sortStrs (ta.filter (fun x => ¬ x ∈ tb))
  let d2 := sortStrs (tb.filter (fun x => ¬ x ∈ ta))
  let t0 := joinSpace inter
  let t1 := joinSpace (inter ++ d1)
  let t2 := joinSpace (inter ++ d2)
  max (max (indelSim t0 t1) (indelSim t0 t2)) (indelSim t1 t2)

namespace FuzzyTextMatcher

/-- `FuzzyTextMatcher._best_match`: empty inputs score `0`; otherwise
lower-case and strip both strings and take the best of the four
similarity measures. -/
def best_match (str1 str2 : String) : ℚ :=
  if str1 = "" ∨ str2 = "" then 0
  else
    let s1 := trimChars (str1.data.map Char.toLower)
    let s2 := trimChars (str2.data.map Char.toLower)
    max (max (indelSim s1 s2) (fragmentSim s1 s2))
      (max (tokenSortSim s1 s2) (tokenSetSim s1 s2))

/-- `FuzzyTextMatcher.score`: compare descriptions and references; a
near-exact reference match (`> 0.95`) triggers the bonus-weighted
combination capped at `1`, otherwise `0.7·desc + 0.3·ref`. -/
def score (txn1 txn2 : NormalizedTransaction) : ℚ :=
  let desc_score := best_match txn1.description txn2.description
  let ref_score := best_match txn1.reference txn2.reference
  if 95 / 100 < ref_score then
    min 1 (6 / 10 * desc_score + 4 / 10 * ref_score + 1 / 10)
  else 7 / 10 * desc_score + 3 / 10 * ref_score

end FuzzyTextMatcher

namespace DateMatcher

/-- `DateMatcher.score`: same day `1.0`, outside the window `0.0`,
otherwise linear decay `1 − d/(window+1)`.  Default window: 3 days. -/
def score (window_days : Nat) (txn1 txn2 : NormalizedTransaction) : ℚ :=
  let days_diff := (txn1.transaction_date.toOrdinal - txn2.transaction_date.toOrdinal).natAbs
  if days_diff = 0 then 1
  else if window_days < days_diff then 0
  else 1 - (days_diff : ℚ) / ((window_days : ℚ) + 1)

end DateMatcher

/-- `MatchScore`: the four bounded components of a pair's score. -/
structure MatchScore where
  amount_score : ℚ
  text_score : ℚ
  date_score : ℚ
  reference_bonus : ℚ
deriving DecidableEq, Repr

/-- `MatchScore.total_score`: the weighted total
`0.4·amount + 0.3·text + 0.2·date + bonus`. -/
def MatchScore.total_score (s : MatchScore) : ℚ :=
  4 / 10 * s.amount_score + 3 / 10 * s.text_score + 2 / 10 * s.date_score +
    s.reference_bonus

namespace ConfidenceScorer

/-- `ConfidenceScorer._exact_reference_match`: both cleaned references
non-empty and equal. -/
def exact_reference_match (t1 t2 : NormalizedTransaction) : Bool :=
  let ref1 := strUpper (pyStrip t1.reference)
  let ref2 := strUpper (pyStrip t2.reference)
  !(ref1 == "") && !(ref2 == "") && ref1 == ref2

/-- `ConfidenceScorer.calculate_score`: run the three matchers at their
default tolerances and add the `0.1` exact-reference bonus. -/
def calculate_score (source target : NormalizedTransaction) : MatchScore :=
  { amount_score := AmountMatcher.score (1 / 50) (1 / 100) source target,
    text_score := FuzzyTextMatcher.score source target,
    date_score := DateMatcher.score 3 source target,
    reference_bonus := if exact_reference_match source target then 1 / 10 else 0 }

end ConfidenceScorer

/-- `MatchStatus` (the `partly` constructor embeds the source's `PARTIAL`
value, whose name is reserved in Lean). -/
inductive MatchStatus where
  | matched
  | unmatched
  | partly
  | manualReview
deriving DecidableEq, Repr

/-- `MatchResult`: one candidate pairing with its score breakdown. -/
structure MatchResult where
  source_transaction : NormalizedTransaction
  target_transaction : NormalizedTransaction
  score : MatchScore
  status : MatchStatus := .unmatched
  matched_by : String := "system"
  notes : Option String := none
deriving DecidableEq, Repr

/-- `ReconciliationSummary`: aggregate counts of one run. -/
structure ReconciliationSummary where
  total_source_transactions : Nat
  total_target_transactions : Nat
  matched_count : Nat
  unmatched_source_count : Nat
  unmatched_target_count : Nat
  manual_review_count : Nat
  match_rate : ℚ
  total_matched_amount : ℚ
  total_unmatched_amount : ℚ
deriving DecidableEq, Repr

/-- The engine object: the two thresholds stored by `__init__`. -/
structure ReconciliationEngine where
  confidence_threshold : ℚ
  manual_review_threshold : ℚ
deriving DecidableEq, Repr

namespace ReconciliationEngine

/-- `ReconciliationEngine.__init__`: stores both thresholds.  The
constructor body contains no validation and no raise path, so the
embedding always returns `Except.ok`. -/
def init (confidence_threshold manual_review_threshold : ℚ) :
    Except String ReconciliationEngine :=
  .ok ⟨confidence_threshold, manual_review_threshold⟩

/-- Python `set.add` on an id set. -/
def setAdd (s : List String) (x : String) : List String :=
  if x ∈ s then s else x :: s

/-- The target-by-reference dict.  Only insertion and lookup are used, so
a front-inserting association list is observationally the dict: a later
insert of an existing key shadows (overwrites) the older binding. -/
def refInsert (m : List (String × NormalizedTransaction)) (k : String)
    (v : NormalizedTransaction) : List (String × NormalizedTransaction) :=
  (k, v) :: m

/-- Dict lookup. -/
def refFind (m : List (String × NormalizedTransaction)) (k : String) :
    Option NormalizedTransaction :=
  (m.find? (fun p => p.1 == k)).map (fun p => p.2)

/-- Build the Stage-1 reference index over the targets: every target with
a non-empty reference is inserted under its upper-cased reference, later
targets overwriting earlier ones on key collision. -/
def buildRefIndex (targets : List NormalizedTransaction) :
    List (String × NormalizedTransaction) :=
  targets.foldl
    (fun m t => if t.reference ≠ "" then refInsert m (strUpper t.reference) t else m)
    []

/-- Accumulator of `_stage1_exact_match`. -/
structure Stage1State where
  results : List MatchResult
  matched_source_ids : List String
  matched_target_ids : List String
deriving DecidableEq, Repr

/-- One source's Stage-1 step: skip empty references and index misses;
on a hit, accept as `MATCHED`/`exact_reference` only when the pair's
amount score reaches `0.95`, marking both ids. -/
def stage1_step (scorer : NormalizedTransaction → NormalizedTransaction → MatchScore)
    (target_by_ref : List (String × NormalizedTransaction))
    (st : Stage1State) (source : NormalizedTransaction) : Stage1State :=
  if source.reference = "" then st
  else
    match refFind target_by_ref (strUpper source.reference) with
    | none => st
    | some target =>
      let score := scorer source target
      if 95 / 100 ≤ score.amount_score then
        { results := st.results ++
            [{ source_transaction := source, target_transaction := target,
               score := score, status := .matched, matched_by := "exact_reference" }],
          matched_source_ids := setAdd st.matched_source_ids source.id,
          matched_target_ids := setAdd st.matched_target_ids target.id }
      else st

/-- `ReconciliationEngine._stage1_exact_match`. -/
def stage1_exact_match
    (scorer : NormalizedTransaction → NormalizedTransaction → MatchScore)
    (sources targets : List NormalizedTransaction) : Stage1State :=
  sources.foldl (stage1_step scorer (buildRefIndex targets)) ⟨[], [], []⟩

/-- Inner-scan accumulator of `_stage23_fuzzy_match`. -/
structure BestState where
  best : Option MatchResult
  best_score : ℚ
deriving DecidableEq, Repr

/-- One target's step of the inner candidate scan: skip used targets,
keep the first candidate strictly improving on the best score so far
among those reaching the manual-review threshold. -/
def candidate_step
    (scorer : NormalizedTransaction → NormalizedTransaction → MatchScore)
    (manual_review_threshold : ℚ) (used_targets : List String)
    (source : NormalizedTransaction) (bs : BestState)
    (target : NormalizedTransaction) : BestState :=
  if target.id ∈ used_targets then bs
  else
    let score := scorer source target
    let total := score.total_score
    if bs.best_score < total ∧ manual_review_threshold ≤ total then
      { best := some { source_transaction := source, target_transaction := target,
                       score := score, status := .unmatched, matched_by := "fuzzy" },
        best_score := total }
    else bs

/-- The inner candidate scan of one source over the remaining targets. -/
def best_candidate
    (scorer : NormalizedTransaction → NormalizedTransaction → MatchScore)
    (manual_review_threshold : ℚ) (used_targets : List String)
    (source : NormalizedTransaction) (targets : List NormalizedTransaction) :
    BestState :=
  targets.foldl (candidate_step scorer manual_review_threshold used_targets source)
    ⟨none, 0⟩

/-- One source's fuzzy step: emit the best candidate when one exists, and
consume its target only when the total score reaches the confidence
threshold. -/
def stage23_step
    (scorer : NormalizedTransaction → NormalizedTransaction → MatchScore)
    (confidence_threshold manual_review_threshold : ℚ)
    (targets : List NormalizedTransaction)
    (st : List MatchResult × List String) (source : NormalizedTransaction) :
    List MatchResult × List String :=
  let bs := best_candidate scorer manual_review_threshold st.2 source targets
  match bs.best with
  | none => st
  | some r =>
    (st.1 ++ [r],
     if confidence_threshold ≤ r.score.total_score then
       setAdd st.2 r.target_transaction.id
     else st.2)

/-- `ReconciliationEngine._stage23_fuzzy_match`. -/
def stage23_fuzzy_match
    (scorer : NormalizedTransaction → NormalizedTransaction → MatchScore)
    (confidence_threshold manual_review_threshold : ℚ)
    (sources targets : List NormalizedTransaction) : List MatchResult :=
  (sources.foldl (stage23_step scorer confidence_threshold manual_review_threshold targets)
    ([], [])).1

/-- Accumulator of the classification loop inside `reconcile`. -/
structure RecState where
  results : List MatchResult
  matched_source_ids : List String
  matched_target_ids : List String
  manual_review_count : Nat
deriving DecidableEq, Repr

/-- The classification of one fuzzy result inside `reconcile`: mark
`MATCHED` at or above the confidence threshold (consuming both ids),
`MANUAL_REVIEW` at or above the manual-review threshold, and append the
result unchanged otherwise. -/
def classify_step (confidence_threshold manual_review_threshold : ℚ)
    (st : RecState) (r : MatchResult) : RecState :=
  if confidence_threshold ≤ r.score.total_score then
    { results := st.results ++ [{ r with status := .matched }],
      matched_source_ids := setAdd st.matched_source_ids r.source_transaction.id,
      matched_target_ids := setAdd st.matched_target_ids r.target_transaction.id,
      manual_review_count := st.manual_review_count }
  else if manual_review_threshold ≤ r.score.total_score then
    { st with results := st.results ++ [{ r with status := .manualReview }],
              manual_review_count := st.manual_review_count + 1 }
  else { st with results := st.results ++ [r] }

/-- `ReconciliationEngine._build_summary`. -/
def build_summary (sources targets : List NormalizedTransaction)
    (matched_source_ids matched_target_ids : List String)
    (manual_review_count : Nat) : ReconciliationSummary :=
  { total_source_transactions := sources.length,
    total_target_transactions := targets.length,
    matched_count := matched_source_ids.length,
    unmatched_source_count := sources.length - matched_source_ids.length,
    unmatched_target_count := targets.length - matched_target_ids.length,
    manual_review_count := manual_review_count,
    match_rate :=
      if sources.isEmpty then 0
      else (matched_source_ids.length : ℚ) / (sources.length : ℚ),
    total_matched_amount :=
      ((sources.filter (fun s => s.id ∈ matched_source_ids)).map
        (fun s => s.amount.val)).sum,
    total_unmatched_amount :=
      ((sources.filter (fun s => ¬ s.id ∈ matched_source_ids)).map
        (fun s => s.amount.val)).sum }

/-- `ReconciliationEngine.reconcile`, parametric in the scorer the engine
holds (`self.scorer.calculate_score`). -/
def reconcileWith
    (scorer : NormalizedTransaction → NormalizedTransaction → MatchScore)
    (confidence_threshold manual_review_threshold : ℚ)
    (source_transactions target_transactions : List NormalizedTransaction) :
    List MatchResult × ReconciliationSummary :=
  let st1 := stage1_exact_match scorer source_transactions target_transactions
  let remaining_sources :=
    source_transactions.filter (fun s => ¬ s.id ∈ st1.matched_source_ids)
  let remaining_targets :=
    target_transactions.filter (fun t => ¬ t.id ∈ st1.matched_target_ids)
  let fuzzy := stage23_fuzzy_match scorer confidence_threshold manual_review_threshold
    remaining_sources remaining_targets
  let fin := fuzzy.foldl (classify_step confidence_threshold manual_review_threshold)
    ⟨st1.results, st1.matched_source_ids, st1.matched_target_ids, 0⟩
  (fin.results,
   build_summary source_transactions target_transactions
     fin.matched_source_ids fin.matched_target_ids fin.manual_review_count)

/-- `ReconciliationEngine.reconcile` with the engine's actual
`ConfidenceScorer`. -/
def reconcile (confidence_threshold manual_review_threshold : ℚ)
    (source_transactions target_transactions : List NormalizedTransaction) :
    List MatchResult × ReconciliationSummary :=
  reconcileWith ConfidenceScorer.calculate_score confidence_threshold
    manual_review_threshold source_transactions target_transactions

/-- How `classify_step` rewrites one fuzzy result (extracted for
reasoning about the classification loop). -/
def reclassify (confidence_threshold manual_review_threshold : ℚ)
    (r : MatchResult) : MatchResult :=
  if confidence_threshold ≤ r.score.total_score then { r with status := .matched }
  else if manual_review_threshold ≤ r.score.total_score then
    { r with status := .manualReview }
  else r

/-- The Stage-1 lookup keys of a source list: the upper-cased non-empty
references, in order. -/
def srcKeys (sources : List NormalizedTransaction) : List String :=
  (sources.filter (fun s => !(s.reference == ""))).map (fun s => strUpper s.reference)

end ReconciliationEngine

/-- The spec's hard-rejection predicate (§4.2): absolute amount above one
billion, or transaction year earlier than 2000.  Stated from the spec's
words, to be compared with the validator's behaviour. -/
def specHardReject (t : NormalizedTransaction) : Bool :=
  decide (DataValidator.MAX_AMOUNT < |t.amount.val|) ||
    decide (t.transaction_date.year < DataValidator.MIN_DATE_YEAR)

/-!  Concrete sample data used by witnesses and counterexamples. -/

/-- A sample date. -/
def wDate : Date := ⟨2024, 1, 15⟩

/-- A sample source transaction. -/
def wSrc : NormalizedTransaction :=
  { id := "S1", transaction_date := wDate, amount := ⟨100000, 2⟩,
    reference := "REF-001", description := "payment alpha",
    source := "bank_statement" }

/-- A second source sharing `wSrc`'s reference. -/
def wSrc2 : NormalizedTransaction := { wSrc with id := "S2" }

/-- A sample source without a reference. -/
def wSrcNoRef : NormalizedTransaction := { wSrc with reference := "" }

/-- A sample target matching `wSrc` exactly. -/
def wTgt : NormalizedTransaction :=
  { id := "T1", transaction_date := wDate, amount := ⟨100000, 2⟩,
    reference := "REF-001", description := "payment alpha",
    source := "ecocash" }

/-- A source whose reference matches `wTgt9` but whose amount differs
wildly. -/
def wSrc9 : NormalizedTransaction :=
  { id := "S9", transaction_date := wDate, amount := ⟨10000, 2⟩,
    reference := "REF-9", description := "pay", source := "bank_statement" }

/-- The target looked up by `wSrc9` in Stage 1. -/
def wTgt9 : NormalizedTransaction :=
  { id := "T9", transaction_date := wDate, amount := ⟨20000, 2⟩,
    reference := "REF-9", description := "pay", source := "ecocash" }

/-- A transaction with amount 100. -/
def wAmtA : NormalizedTransaction :=
  { id := "A", transaction_date := wDate, amount := ⟨100, 0⟩,
    reference := "", description := "x", source := "bank_statement" }

/-- A transaction with amount 200. -/
def wAmtB : NormalizedTransaction :=
  { id := "B", transaction_date := wDate, amount := ⟨200, 0⟩,
    reference := "", description := "x", source := "bank_statement" }

/-- A transaction with amount exactly zero. -/
def wZero : NormalizedTransaction :=
  { id := "Z", transaction_date := wDate, amount := ⟨0, 0⟩,
    reference := "", description := "zero entry", source := "bank_statement" }

/-- A scorer returning a fixed score, used to instantiate the engine
theorems at concrete inputs. -/
def constScorer (s : MatchScore) :
    NormalizedTransaction → NormalizedTransaction → MatchScore :=
  fun _ _ => s

/-- A sample raw CSV row. -/
def wRow : RawTransaction :=
  { raw_date := "2024-01-15", raw_amount := "$1,500.00",
    raw_reference := "ref 1", description := "Payment",
    source_file := "a.csv", line_number := 2 }

/-- The fuzzy `MATCHED` result produced by `reconcileWith` with a constant
perfect scorer on `[wSrcNoRef]` and `[wTgt]`. -/
def wFuzzyRes : MatchResult :=
  { source_transaction := wSrcNoRef, target_transaction := wTgt,
    score := ⟨1, 1, 1, 1 / 10⟩, status := .matched, matched_by := "fuzzy" }

/-- The manual-review-level candidate produced by `best_candidate` with a
constant `0.7`-total scorer on `wSrc` against `[wTgt]`. -/
def wManualRes : MatchResult :=
  { source_transaction := wSrc, target_transaction := wTgt,
    score := ⟨1, 1, 0, 0⟩, status := .unmatched, matched_by := "fuzzy" }

/-!  ## Helper lemmas -/

namespace ReconciliationEngine

theorem mem_setAdd_of_mem {s : List String} {x : String} (y : String) (h : x ∈ s) :
    x ∈ setAdd s y := by
  unfold setAdd
  split
  · exact h
  · exact List.mem_cons_of_mem _ h

theorem mem_setAdd_self (s : List String) (y : String) : y ∈ setAdd s y := by
  unfold setAdd
  split
  · assumption
  · exact List.mem_cons_self _ _

/-- What is true of any candidate the inner scan of `source` over
`targets` can return, given the used-target set `used`. -/
def CandProp (scorer : NormalizedTransaction → NormalizedTransaction → MatchScore)
    (manual_review_threshold : ℚ) (used : List String)
    (source : NormalizedTransaction) (targets : List NormalizedTransaction)
    (r : MatchResult) : Prop :=
  r.source_transaction = source ∧ r.status = .unmatched ∧ r.matched_by = "fuzzy" ∧
  r.target_transaction ∈ targets ∧ ¬ r.target_transaction.id ∈ used ∧
  manual_review_threshold ≤ r.score.total_score ∧
  r.score = scorer source r.target_transaction

theorem candidate_step_cases (scorer) (m : ℚ) (used : List String)
    (source : NormalizedTransaction) (bs : BestState) (target : NormalizedTransaction) :
    candidate_step scorer m used source bs target = bs ∨
    (¬ target.id ∈ used ∧ m ≤ (scorer source target).total_score ∧
      candidate_step scorer m used source bs target =
        ⟨some { source_transaction := source, target_transaction := target,
                score := scorer source target, status := .unmatched,
                matched_by := "fuzzy" },
          (scorer source target).total_score⟩) := by
  simp only [candidate_step]
  split
  · exact Or.inl rfl
  · split
    · next hused hcond => exact Or.inr ⟨hused, hcond.2, rfl⟩
    · exact Or.inl rfl

theorem best_candidate_sound_aux (scorer) (m : ℚ) (used : List String)
    (source : NormalizedTransaction) (full : List NormalizedTransaction) :
    ∀ (ts : List NormalizedTransaction), (∀ x ∈ ts, x ∈ full) →
    ∀ (b₀ : BestState),
      (∀ r, b₀.best = some r → CandProp scorer m used source full r) →
    ∀ r, (ts.foldl (candidate_step scorer m used source) b₀).best = some r →
      CandProp scorer m used source full r := by
  intro ts
  induction ts with
  | nil => intro _ b₀ h₀ r hr; exact h₀ r hr
  | cons target rest ih =>
    intro hsub b₀ h₀ r hr
    refine ih (fun x hx => hsub x (List.mem_cons_of_mem _ hx)) _ ?_ r hr
    intro r' hr'
    rcases candidate_step_cases scorer m used source b₀ target with hcase | ⟨hused, hm, hcase⟩
    · rw [hcase] at hr'
      exact h₀ r' hr'
    · rw [hcase] at hr'
      cases hr'
      exact ⟨rfl, rfl, rfl, hsub target (List.mem_cons_self _ _), hused, hm, rfl⟩

theorem best_candidate_sound (scorer) (m : ℚ) (used : List String)
    (source : NormalizedTransaction) (targets : List NormalizedTransaction)
    (r : MatchResult)
    (hr : (best_candidate scorer m used source targets).best = some r) :
    CandProp scorer m used source targets r := by
  refine best_candidate_sound_aux scorer m used source targets targets
    (fun x hx => hx) ⟨none, 0⟩ ?_ r hr
  intro r' hr'
  simp at hr'

end ReconciliationEngine

/-!  ## Claims -/

/-- **C2, counterexample.**  The claim says constructing the engine with
`manual_review_threshold > confidence_threshold`, or with a threshold
outside `[0,1]`, raises a configuration error immediately.  The
constructor stores the thresholds without any check: both constructions
below succeed. -/
theorem C2_threshold_validation_counterexample :
    (1 / 2 : ℚ) < 9 / 10 ∧
    ReconciliationEngine.init (1 / 2) (9 / 10) = .ok ⟨1 / 2, 9 / 10⟩ ∧
    ¬ ((5 / 2 : ℚ) ≤ 1) ∧
    ReconciliationEngine.init (5 / 2) (1 / 2) = .ok ⟨5 / 2, 1 / 2⟩ :=
  ⟨by norm_num, rfl, by norm_num, rfl⟩

/-- **C2, amended.**  `ReconciliationEngine.__init__` performs no
threshold validation at all: for every pair of thresholds — in range or
not, ordered or not — construction succeeds and stores both values
unchanged. -/
theorem C2_threshold_validation_amended (confidence_threshold manual_review_threshold : ℚ) :
    ReconciliationEngine.init confidence_threshold manual_review_threshold =
      .ok ⟨confidence_threshold, manual_review_threshold⟩ := rfl

/-- **C7.**  Amount parsing strips currency symbols, separators and
whitespace and negates fully parenthesized values: `"$1,500.00"` parses
to the decimal `1500.00` and `"(500.00)"` to `-500.00`. -/
theorem C7_amount_parsing_roundtrip :
    NormalizationPipeline.parse_amount "$1,500.00" = some ⟨150000, 2⟩ ∧
    (Dec.mk 150000 2).val = 1500 ∧
    NormalizationPipeline.parse_amount "(500.00)" = some ⟨-50000, 2⟩ ∧
    (Dec.mk (-50000) 2).val = -500 :=
  ⟨rfl, by norm_num [Dec.val], rfl, by norm_num [Dec.val]⟩

/-- **C9.**  In Stage 1, a source whose non-empty reference hits the
index but whose pair scores below `0.95` on amount leaves the Stage-1
state untouched: no result is emitted and neither record is marked
matched, so both remain in the remaining pools handed to the fuzzy
stage. -/
theorem C9_stage1_low_amount_frame (scorer)
    (target_by_ref : List (String × NormalizedTransaction))
    (st : ReconciliationEngine.Stage1State) (source target : NormalizedTransaction)
    (h1 : ¬ source.reference = "")
    (h2 : ReconciliationEngine.refFind target_by_ref (strUpper source.reference) =
      some target)
    (h3 : (scorer source target).amount_score < 95 / 100) :
    ReconciliationEngine.stage1_step scorer target_by_ref st source = st := by
  unfold ReconciliationEngine.stage1_step
  rw [if_neg h1, h2]
  exact if_neg (not_le.mpr h3)

/-- **C9, witness** at the engine's own scorer: `wSrc9` finds `wTgt9` by
reference but the amounts 100 and 200 score 0 on amount, so the step is
the identity. -/
theorem C9_stage1_low_amount_frame_witness :
    ReconciliationEngine.stage1_step ConfidenceScorer.calculate_score
      (ReconciliationEngine.buildRefIndex [wTgt9]) ⟨[], [], []⟩ wSrc9 = ⟨[], [], []⟩ :=
  C9_stage1_low_amount_frame ConfidenceScorer.calculate_score
    (ReconciliationEngine.buildRefIndex [wTgt9]) ⟨[], [], []⟩ wSrc9 wTgt9
    (by decide) (by decide) (by decide)

/-- **C5.**  In the fuzzy stage, a best candidate below the confidence
threshold is emitted without consuming its target: the used-target set is
unchanged (the target was unconsumed to begin with), so the target stays
eligible for every subsequent source; only a candidate reaching the
confidence threshold adds its target to the used set. -/
theorem C5_manual_review_frame (scorer) (confidence_threshold manual_review_threshold : ℚ)
    (targets : List NormalizedTransaction) (results0 : List MatchResult)
    (used : List String) (source : NormalizedTransaction) (r : MatchResult)
    (hbest : (ReconciliationEngine.best_candidate scorer manual_review_threshold
      used source targets).best = some r) :
    ¬ r.target_transaction.id ∈ used ∧
    (r.score.total_score < confidence_threshold →
      ReconciliationEngine.stage23_step scorer confidence_threshold
        manual_review_threshold targets (results0, used) source =
        (results0 ++ [r], used)) ∧
    (confidence_threshold ≤ r.score.total_score →
      ReconciliationEngine.stage23_step scorer confidence_threshold
        manual_review_threshold targets (results0, used) source =
        (results0 ++ [r],
          ReconciliationEngine.setAdd used r.target_transaction.id)) := by
  have hsound := ReconciliationEngine.best_candidate_sound scorer
    manual_review_threshold used source targets r hbest
  refine ⟨hsound.2.2.2.2.1, ?_, ?_⟩
  · intro hlt
    simp only [ReconciliationEngine.stage23_step, hbest]
    rw [if_neg (not_le.mpr hlt)]
  · intro hge
    simp only [ReconciliationEngine.stage23_step, hbest]
    rw [if_pos hge]

/-- **C5, witness**: with a constant scorer totalling `0.7`, the single
candidate over `[wTgt]` is emitted at manual-review level and the
used-target set stays empty. -/
theorem C5_manual_review_frame_witness :
    ¬ wManualRes.target_transaction.id ∈ ([] : List String) ∧
    ReconciliationEngine.stage23_step (constScorer ⟨1, 1, 0, 0⟩) (85 / 100) (1 / 2)
      [wTgt] ([], []) wSrc = ([wManualRes], []) := by
  have h := C5_manual_review_frame (constScorer ⟨1, 1, 0, 0⟩) (85 / 100) (1 / 2)
    [wTgt] [] [] wSrc wManualRes (by decide)
  exact ⟨h.1, h.2.1 (by decide)⟩

/-- **C6.**  With the default tolerances, the amount score is exactly `1`
iff the absolute amounts are equal, and exactly `0` whenever the relative
difference of the absolute amounts exceeds 10% and their absolute
difference exceeds the absolute tolerance `0.01`.  (The branch order of
§4.3 — percentage tier first — is the structure of
`AmountMatcher.score` itself.) -/
theorem C6_amount_score_boundary (txn1 txn2 : NormalizedTransaction) :
    (AmountMatcher.score (1 / 50) (1 / 100) txn1 txn2 = 1 ↔
      |txn1.amount.val| = |txn2.amount.val|) ∧
    (1 / 10 < |(|txn1.amount.val|) - (|txn2.amount.val|)| /
        (((|txn1.amount.val|) + (|txn2.amount.val|)) / 2) →
      1 / 100 < |(|txn1.amount.val|) - (|txn2.amount.val|)| →
      AmountMatcher.score (1 / 50) (1 / 100) txn1 txn2 = 0) := by
  simp only [AmountMatcher.score]
  set a := |txn1.amount.val| with ha_def
  set b := |txn2.amount.val| with hb_def
  have ha : 0 ≤ a := abs_nonneg _
  have hb : 0 ≤ b := abs_nonneg _
  constructor
  · constructor
    · intro h
      by_contra hne
      rw [if_neg hne] at h
      by_cases hz : a = 0 ∨ b = 0
      · rw [if_pos hz] at h
        norm_num at h
      · rw [if_neg hz] at h
        push_neg at hz
        have ha0 : 0 < a := lt_of_le_of_ne ha (Ne.symm hz.1)
        have hb0 : 0 < b := lt_of_le_of_ne hb (Ne.symm hz.2)
        have hdiff : 0 < |a - b| := abs_pos.mpr (sub_ne_zero.mpr hne)
        have havg : 0 < (a + b) / 2 := by positivity
        have hpct : 0 < |a - b| / ((a + b) / 2) := div_pos hdiff havg
        by_cases h1 : |a - b| / ((a + b) / 2) ≤ 1 / 50
        · rw [if_pos h1] at h
          have hfold : |a - b| / ((a + b) / 2) / (1 / 50) * (1 / 10)
              = 5 * (|a - b| / ((a + b) / 2)) := by ring
          rw [hfold] at h
          linarith
        · rw [if_neg h1] at h
          by_cases h2 : |a - b| ≤ 1 / 100
          · rw [if_pos h2] at h
            norm_num at h
          · rw [if_neg h2] at h
            by_cases h3 : |a - b| / ((a + b) / 2) < 1 / 10
            · rw [if_pos h3] at h
              have hmax : max (1 / 2 : ℚ) (1 - |a - b| / ((a + b) / 2)) < 1 :=
                max_lt (by norm_num) (by linarith)
              rw [h] at hmax
              exact absurd hmax (by norm_num)
            · rw [if_neg h3] at h
              norm_num at h
    · intro h
      rw [if_pos h]
  · intro hpct hdiff2
    by_cases heq : a = b
    · exfalso
      rw [heq, sub_self, abs_zero, zero_div] at hpct
      norm_num at hpct
    · rw [if_neg heq]
      by_cases hz : a = 0 ∨ b = 0
      · rw [if_pos hz]
      · rw [if_neg hz]
        have h1 : ¬ (|a - b| / ((a + b) / 2) ≤ 1 / 50) := by
          intro hle; linarith
        rw [if_neg h1]
        have h2 : ¬ (|a - b| ≤ 1 / 100) := by intro hle; linarith
        rw [if_neg h2]
        have h3 : ¬ (|a - b| / ((a + b) / 2) < 1 / 10) := by intro hlt; linarith
        rw [if_neg h3]

/-- **C6, witness**: equal amounts (`1000.00` both sides) score exactly
`1`; amounts `100` and `200` (relative difference `2/3`, absolute
difference `100`) score exactly `0`. -/
theorem C6_amount_score_boundary_witness :
    AmountMatcher.score (1 / 50) (1 / 100) wSrc wTgt = 1 ∧
    AmountMatcher.score (1 / 50) (1 / 100) wAmtA wAmtB = 0 :=
  ⟨(C6_amount_score_boundary wSrc wTgt).1.mpr (by decide),
   (C6_amount_score_boundary wAmtA wAmtB).2 (by decide) (by decide)⟩

/-!  ## Validator lemmas and claims -/

theorem validate_single_flag (st : ValidatorState) (t : NormalizedTransaction) :
    (DataValidator.validate_single st t).1 = !specHardReject t := by
  simp only [DataValidator.validate_single, specHardReject]
  by_cases h1 : DataValidator.MAX_AMOUNT < |t.amount.val| <;>
    by_cases h2 : t.transaction_date.year < DataValidator.MIN_DATE_YEAR <;>
      simp [h1, h2]

theorem validate_single_extends (st : ValidatorState) (t : NormalizedTransaction) :
    ∃ es ws, (DataValidator.validate_single st t).2 =
      ⟨st.errors ++ es, st.warnings ++ ws⟩ :=
  ⟨_, _, rfl⟩

theorem validate_step_state
    (acc : (List NormalizedTransaction × List NormalizedTransaction) × ValidatorState)
    (txn : NormalizedTransaction) :
    (DataValidator.validate_step acc txn).2 = (DataValidator.validate_single acc.2 txn).2 := by
  simp only [DataValidator.validate_step]
  split <;> rfl

theorem validate_fold_extends :
    ∀ (ts : List NormalizedTransaction)
      (acc : (List NormalizedTransaction × List NormalizedTransaction) × ValidatorState),
    ∃ es ws, (ts.foldl DataValidator.validate_step acc).2 =
      ⟨acc.2.errors ++ es, acc.2.warnings ++ ws⟩ := by
  intro ts
  induction ts with
  | nil => intro acc; exact ⟨[], [], by simp⟩
  | cons t rest ih =>
    intro acc
    obtain ⟨es, ws, h⟩ := ih (DataValidator.validate_step acc t)
    obtain ⟨e1, w1, h1⟩ := validate_single_extends acc.2 t
    rw [List.foldl_cons] at *
    refine ⟨e1 ++ es, w1 ++ ws, ?_⟩
    rw [h, validate_step_state, h1]
    simp [List.append_assoc]

theorem validate_fold_partition :
    ∀ (ts va ia : List NormalizedTransaction) (st : ValidatorState),
    (ts.foldl DataValidator.validate_step ((va, ia), st)).1.1
        = va ++ ts.filter (fun t => !specHardReject t) ∧
    (ts.foldl DataValidator.validate_step ((va, ia), st)).1.2
        = ia ++ ts.filter (fun t => specHardReject t) := by
  intro ts
  induction ts with
  | nil => intro va ia st; simp
  | cons t rest ih =>
    intro va ia st
    by_cases hh : specHardReject t = true
    · have hstep : DataValidator.validate_step ((va, ia), st) t
          = ((va, ia ++ [t]), (DataValidator.validate_single st t).2) := by
        simp only [DataValidator.validate_step, validate_single_flag, hh]
        rfl
      rw [List.foldl_cons, hstep]
      obtain ⟨h1, h2⟩ := ih va (ia ++ [t]) (DataValidator.validate_single st t).2
      refine ⟨?_, ?_⟩
      · rw [h1, List.filter_cons]
        simp [hh]
      · rw [h2, List.filter_cons]
        simp [hh]
    · have hf : specHardReject t = false := by
        cases hx : specHardReject t
        · rfl
        · exact absurd hx hh
      have hstep : DataValidator.validate_step ((va, ia), st) t
          = ((va ++ [t], ia), (DataValidator.validate_single st t).2) := by
        simp only [DataValidator.validate_step, validate_single_flag, hf]
        rfl
      rw [List.foldl_cons, hstep]
      obtain ⟨h1, h2⟩ := ih (va ++ [t]) ia (DataValidator.validate_single st t).2
      refine ⟨?_, ?_⟩
      · rw [h1, List.filter_cons]
        simp [hf]
      · rw [h2, List.filter_cons]
        simp [hf]

/-- **C8.**  The validator partitions its input exactly by the hard
conditions — a transaction lands in `invalid` iff its absolute amount
exceeds 1,000,000,000 or its year is earlier than 2000; the validity flag
of a single transaction depends on nothing else (zero amounts and blank
descriptions stay valid and are recorded as warnings only); and the
embedding is total, reflecting that `validate_batch` never raises. -/
theorem C8_validator_partition (st : ValidatorState)
    (txns : List NormalizedTransaction) :
    (DataValidator.validate_batch st txns).1.1
        = txns.filter (fun t => !specHardReject t) ∧
    (DataValidator.validate_batch st txns).1.2
        = txns.filter (fun t => specHardReject t) ∧
    (∀ t st0, (DataValidator.validate_single st0 t).1 = !specHardReject t) ∧
    (∀ t st0, t.amount.val = 0 →
      (t.id, "Zero amount transaction") ∈
        (DataValidator.validate_single st0 t).2.warnings) := by
  obtain ⟨h1, h2⟩ := validate_fold_partition txns [] [] st
  refine ⟨by simpa using h1, by simpa using h2,
    fun t st0 => validate_single_flag st0 t, ?_⟩
  intro t st0 hz
  simp [DataValidator.validate_single, hz]

/-- **C8, witness**: a zero-amount transaction is flagged with a warning
by `_validate_single`. -/
theorem C8_validator_partition_witness :
    (wZero.id, "Zero amount transaction") ∈
      (DataValidator.validate_single ⟨[], []⟩ wZero).2.warnings :=
  (C8_validator_partition ⟨[], []⟩ []).2.2.2 wZero ⟨[], []⟩ (by decide)

/-- **C10.**  The validator's error and warning lists are instance state
that `validate_batch` only extends: after a second call on the same
instance, the first call's entries are still in place at the front of
both lists, and `get_report` reports totals over, and the first 50
entries of, everything accumulated since construction. -/
theorem C10_validator_accumulation (st : ValidatorState)
    (ts1 ts2 : List NormalizedTransaction) :
    (∃ es ws,
      (DataValidator.validate_batch (DataValidator.validate_batch st ts1).2 ts2).2 =
        ⟨(DataValidator.validate_batch st ts1).2.errors ++ es,
         (DataValidator.validate_batch st ts1).2.warnings ++ ws⟩) ∧
    (∃ es0 ws0,
      (DataValidator.validate_batch st ts1).2 =
        ⟨st.errors ++ es0, st.warnings ++ ws0⟩) ∧
    DataValidator.get_report
        (DataValidator.validate_batch (DataValidator.validate_batch st ts1).2 ts2).2 =
      ⟨(DataValidator.validate_batch (DataValidator.validate_batch st ts1).2 ts2).2.errors.length,
       (DataValidator.validate_batch (DataValidator.validate_batch st ts1).2 ts2).2.warnings.length,
       (DataValidator.validate_batch (DataValidator.validate_batch st ts1).2 ts2).2.errors.take 50,
       (DataValidator.validate_batch (DataValidator.validate_batch st ts1).2 ts2).2.warnings.take 50⟩ :=
  ⟨validate_fold_extends ts2 _, validate_fold_extends ts1 _, rfl⟩

/-!  ## Pipeline dedup-scope lemmas and claims -/

theorem process_fold_inv (source : String) (seen : List String) :
    ∀ (rows : List RawTransaction) (acc : List NormalizedTransaction × List String),
    (∀ x ∈ seen, x ∈ acc.2) →
    (∀ t ∈ acc.1, ¬ t.id ∈ seen ∧ t.id ∈ acc.2) →
    (∀ x ∈ seen, x ∈ (rows.foldl (NormalizationPipeline.process_step source) acc).2) ∧
    (∀ t ∈ (rows.foldl (NormalizationPipeline.process_step source) acc).1,
      ¬ t.id ∈ seen ∧
        t.id ∈ (rows.foldl (NormalizationPipeline.process_step source) acc).2) := by
  intro rows
  induction rows with
  | nil => intro acc hsub hmem; exact ⟨hsub, hmem⟩
  | cons raw rest ih =>
    intro acc hsub hmem
    rw [List.foldl_cons]
    rcases hstep : NormalizationPipeline.process_step source acc raw with ⟨out, seen'⟩
    refine ih (out, seen') ?_ ?_ <;>
      simp only [NormalizationPipeline.process_step] at hstep
    · intro x hx
      rcases hn : NormalizationPipeline.normalize_single source raw with _ | txn <;>
        simp only [hn] at hstep
      · cases hstep; exact hsub x hx
      · by_cases hin : txn.id ∈ acc.2
        · rw [if_pos hin] at hstep; cases hstep; exact hsub x hx
        · rw [if_neg hin] at hstep; cases hstep
          exact List.mem_cons_of_mem _ (hsub x hx)
    · intro t ht
      rcases hn : NormalizationPipeline.normalize_single source raw with _ | txn <;>
        simp only [hn] at hstep
      · cases hstep; exact hmem t ht
      · by_cases hin : txn.id ∈ acc.2
        · rw [if_pos hin] at hstep; cases hstep; exact hmem t ht
        · rw [if_neg hin] at hstep; cases hstep
          rcases List.mem_append.mp ht with hold | hnew
          · obtain ⟨h1, h2⟩ := hmem t hold
            exact ⟨h1, List.mem_cons_of_mem _ h2⟩
          · rcases List.mem_singleton.mp hnew with rfl
            exact ⟨fun hseen => hin (hsub _ hseen), List.mem_cons_self _ _⟩

/-- **C3, counterexample.**  The claim says the dedup seen-set is scoped
to one `process` call, so the same raw row fed to a second call on the
same pipeline instance is emitted again.  It is not: `_seen_hashes` is
instance state, and the second call returns an empty batch. -/
theorem C3_seen_set_scope_counterexample :
    (NormalizationPipeline.process "bank_statement" [] [wRow]).1.length = 1 ∧
    (NormalizationPipeline.process "bank_statement"
      (NormalizationPipeline.process "bank_statement" [] [wRow]).2 [wRow]).1 = [] := by
  constructor
  · decide
  · decide

/-- **C3, amended.**  The seen-set is scoped to the pipeline instance,
not to one `process` call: every transaction a call emits has a
fingerprint that was not yet in the instance's seen-set at the start of
the call and is in it afterwards — so a row of a later call on the same
instance whose canonical content (hence fingerprint) equals that of a row
already emitted earlier is dropped, not re-emitted. -/
theorem C3_seen_set_scope_amended (source : String) (seen : List String)
    (rows : List RawTransaction) :
    ∀ txn ∈ (NormalizationPipeline.process source seen rows).1,
      ¬ txn.id ∈ seen ∧
        txn.id ∈ (NormalizationPipeline.process source seen rows).2 := by
  have h := process_fold_inv source seen rows ([], seen)
    (fun x hx => hx) (fun t ht => absurd ht (List.not_mem_nil t))
  exact h.2

/-- **C3, witness**: the transaction emitted for `wRow` by a fresh
instance was unseen before the call and is recorded afterwards. -/
theorem C3_seen_set_scope_amended_witness :
    ¬ ((NormalizationPipeline.process "bank_statement" [] [wRow]).1.headD wZero).id
        ∈ ([] : List String) ∧
    ((NormalizationPipeline.process "bank_statement" [] [wRow]).1.headD wZero).id
        ∈ (NormalizationPipeline.process "bank_statement" [] [wRow]).2 :=
  C3_seen_set_scope_amended "bank_statement" [] [wRow]
    ((NormalizationPipeline.process "bank_statement" [] [wRow]).1.headD wZero)
    (by decide)

/-!  ## Engine stage lemmas -/

namespace ReconciliationEngine

theorem stage1_step_cases (scorer)
    (idx : List (String × NormalizedTransaction)) (st : Stage1State)
    (s : NormalizedTransaction) :
    stage1_step scorer idx st s = st ∨
    (¬ s.reference = "" ∧ ∃ t, refFind idx (strUpper s.reference) = some t ∧
      95 / 100 ≤ (scorer s t).amount_score ∧
      stage1_step scorer idx st s =
        { results := st.results ++
            [{ source_transaction := s, target_transaction := t,
               score := scorer s t, status := .matched,
               matched_by := "exact_reference" }],
          matched_source_ids := setAdd st.matched_source_ids s.id,
          matched_target_ids := setAdd st.matched_target_ids t.id }) := by
  simp only [stage1_step]
  split
  · exact Or.inl rfl
  · next h1 =>
    split
    · exact Or.inl rfl
    · next t hf =>
      split
      · next hsc => exact Or.inr ⟨h1, t, hf, hsc, rfl⟩
      · exact Or.inl rfl

theorem refFind_build_sound (targets : List NormalizedTransaction) :
    ∀ k t, refFind (buildRefIndex targets) k = some t →
      t ∈ targets ∧ strUpper t.reference = k := by
  suffices h : ∀ (ts : List NormalizedTransaction)
      (m0 : List (String × NormalizedTransaction)),
      (∀ x ∈ ts, x ∈ targets) →
      (∀ k t, refFind m0 k = some t → t ∈ targets ∧ strUpper t.reference = k) →
      ∀ k t, refFind (ts.foldl
        (fun m t => if t.reference ≠ "" then refInsert m (strUpper t.reference) t else m)
        m0) k = some t →
        t ∈ targets ∧ strUpper t.reference = k by
    intro k t ht
    refine h targets [] (fun x hx => hx) ?_ k t ht
    intro k t ht
    simp [refFind] at ht
  intro ts
  induction ts with
  | nil => intro m0 _ h0; exact h0
  | cons x rest ih =>
    intro m0 hsub h0
    rw [List.foldl_cons]
    refine ih _ (fun y hy => hsub y (List.mem_cons_of_mem _ hy)) ?_
    intro k t ht
    by_cases hx : x.reference = ""
    · rw [if_neg (fun hcon => hcon hx)] at ht
      exact h0 k t ht
    · rw [if_pos hx] at ht
      simp only [refInsert, refFind] at ht
      by_cases hk : strUpper x.reference = k
      · rw [List.find?_cons_of_pos _ (by simpa using hk)] at ht
        cases ht
        exact ⟨hsub x (List.mem_cons_self _ _), hk⟩
      · rw [List.find?_cons_of_neg _ (by simpa using hk)] at ht
        exact h0 k t ht

theorem stage1_results_status (scorer)
    (idx : List (String × NormalizedTransaction)) :
    ∀ (sources : List NormalizedTransaction) (st : Stage1State),
    (∀ r ∈ st.results, r.status = .matched) →
    ∀ r ∈ (sources.foldl (stage1_step scorer idx) st).results, r.status = .matched := by
  intro sources
  induction sources with
  | nil => intro st h; exact h
  | cons s rest ih =>
    intro st h
    rw [List.foldl_cons]
    refine ih _ ?_
    rcases stage1_step_cases scorer idx st s with hcase | ⟨_, t, _, _, hcase⟩ <;>
      rw [hcase]
    · exact h
    · intro r hr
      rcases List.mem_append.mp hr with hold | hnew
      · exact h r hold
      · rcases List.mem_singleton.mp hnew with rfl
        rfl

theorem srcKeys_cons (s : NormalizedTransaction) (rest : List NormalizedTransaction) :
    srcKeys (s :: rest) =
      if s.reference = "" then srcKeys rest
      else strUpper s.reference :: srcKeys rest := by
  simp only [srcKeys, List.filter_cons]
  by_cases h : s.reference = ""
  · simp [h]
  · simp [h]

theorem srcKeys_tail_nodup {s : NormalizedTransaction}
    {rest : List NormalizedTransaction} (h : (srcKeys (s :: rest)).Nodup) :
    (srcKeys rest).Nodup := by
  rw [srcKeys_cons] at h
  by_cases hs : s.reference = ""
  · rwa [if_pos hs] at h
  · rw [if_neg hs] at h
    exact h.of_cons

theorem srcKeys_tail_subset {s : NormalizedTransaction}
    {rest : List NormalizedTransaction} {k : String} (h : k ∈ srcKeys rest) :
    k ∈ srcKeys (s :: rest) := by
  rw [srcKeys_cons]
  by_cases hs : s.reference = ""
  · rwa [if_pos hs]
  · rw [if_neg hs]
    exact List.mem_cons_of_mem _ h

theorem stage1_fold_inv (scorer) (targets : List NormalizedTransaction)
    (ht : (targets.map (fun t => t.id)).Nodup) :
    ∀ (sources : List NormalizedTransaction) (st : Stage1State),
    (srcKeys sources).Nodup →
    ((st.results.map (fun r => r.target_transaction.id)).Nodup) →
    (∀ r ∈ st.results, r.target_transaction.id ∈ st.matched_target_ids) →
    (∀ r ∈ st.results, ∃ k,
      refFind (buildRefIndex targets) k = some r.target_transaction ∧
        ¬ k ∈ srcKeys sources) →
    (((sources.foldl (stage1_step scorer (buildRefIndex targets)) st).results.map
        (fun r => r.target_transaction.id)).Nodup) ∧
    (∀ r ∈ (sources.foldl (stage1_step scorer (buildRefIndex targets)) st).results,
      r.target_transaction.id ∈
        (sources.foldl (stage1_step scorer (buildRefIndex targets)) st).matched_target_ids) := by
  intro sources
  induction sources with
  | nil => intro st _ h1 h2 _; exact ⟨h1, h2⟩
  | cons s rest ih =>
    intro st hkeys h1 h2 h3
    rw [List.foldl_cons]
    rcases stage1_step_cases scorer (buildRefIndex targets) st s with
      hcase | ⟨hs_ne, t, hfind, _, hcase⟩
    · rw [hcase]
      refine ih st (srcKeys_tail_nodup hkeys) h1 h2 ?_
      intro r hr
      obtain ⟨k, hk1, hk2⟩ := h3 r hr
      exact ⟨k, hk1, fun hmem => hk2 (srcKeys_tail_subset hmem)⟩
    · have hkey_cons : srcKeys (s :: rest) = strUpper s.reference :: srcKeys rest := by
        rw [srcKeys_cons, if_neg hs_ne]
      rw [hkey_cons] at hkeys
      have hhead : ¬ strUpper s.reference ∈ srcKeys rest :=
        (List.nodup_cons.mp hkeys).1
      have htail : (srcKeys rest).Nodup := (List.nodup_cons.mp hkeys).2
      obtain ⟨htmem, htkey⟩ := refFind_build_sound targets _ _ hfind
      rw [hcase]
      refine ih _ htail ?_ ?_ ?_
      · rw [List.map_append, List.nodup_append]
        refine ⟨h1, List.nodup_singleton _, ?_⟩
        intro a ha hb
        rcases List.mem_map.mp ha with ⟨r, hr, rfl⟩
        rcases List.mem_singleton.mp hb with heq
        obtain ⟨k, hk1, hk2⟩ := h3 r hr
        obtain ⟨hrmem, hrkey⟩ := refFind_build_sound targets _ _ hk1
        have : r.target_transaction = t :=
          List.inj_on_of_nodup_map ht hrmem htmem heq
        apply hk2
        rw [hkey_cons]
        rw [this] at hrkey
        rw [← hrkey, htkey]
        exact List.mem_cons_self _ _
      · intro r hr
        rcases List.mem_append.mp hr with hold | hnew
        · exact mem_setAdd_of_mem _ (h2 r hold)
        · rcases List.mem_singleton.mp hnew with rfl
          exact mem_setAdd_self _ _
      · intro r hr
        rcases List.mem_append.mp hr with hold | hnew
        · obtain ⟨k, hk1, hk2⟩ := h3 r hold
          refine ⟨k, hk1, fun hmem => hk2 (srcKeys_tail_subset hmem)⟩
        · rcases List.mem_singleton.mp hnew with rfl
          exact ⟨strUpper s.reference, hfind, hhead⟩

theorem candidate_fold_const (scorer) (m : ℚ) (used : List String)
    (source : NormalizedTransaction) :
    ∀ (ts : List NormalizedTransaction) (b : BestState),
    (∀ t ∈ ts, (scorer source t).total_score < m) →
    ts.foldl (candidate_step scorer m used source) b = b := by
  intro ts
  induction ts with
  | nil => intro b _; rfl
  | cons t rest ih =>
    intro b hall
    rw [List.foldl_cons]
    have hstep : candidate_step scorer m used source b t = b := by
      simp only [candidate_step]
      split
      · rfl
      · rw [if_neg]
        intro hcond
        exact absurd hcond.2 (not_le.mpr (hall t (List.mem_cons_self _ _)))
    rw [hstep]
    exact ih b (fun x hx => hall x (List.mem_cons_of_mem _ hx))

theorem stage23_fold_inv (scorer) (c m : ℚ) (targets : List NormalizedTransaction) :
    ∀ (sources : List NormalizedTransaction) (st : List MatchResult × List String),
    (∀ r ∈ st.1, m ≤ r.score.total_score ∧ r.status = .unmatched ∧
      r.matched_by = "fuzzy" ∧ r.target_transaction ∈ targets) →
    (((st.1.filter (fun r => decide (c ≤ r.score.total_score))).map
        (fun r => r.target_transaction.id)).Nodup) →
    (∀ r ∈ st.1, c ≤ r.score.total_score → r.target_transaction.id ∈ st.2) →
    (∀ r ∈ (sources.foldl (stage23_step scorer c m targets) st).1,
      m ≤ r.score.total_score ∧ r.status = .unmatched ∧
        r.matched_by = "fuzzy" ∧ r.target_transaction ∈ targets) ∧
    ((((sources.foldl (stage23_step scorer c m targets) st).1.filter
        (fun r => decide (c ≤ r.score.total_score))).map
      (fun r => r.target_transaction.id)).Nodup) := by
  intro sources
  induction sources with
  | nil => intro st h1 h2 _; exact ⟨h1, h2⟩
  | cons source rest ih =>
    intro st h1 h2 h3
    rw [List.foldl_cons]
    rcases hb : (best_candidate scorer m st.2 source targets).best with _ | r
    · have hstep : stage23_step scorer c m targets st source = st := by
        simp only [stage23_step, hb]
      rw [hstep]
      exact ih st h1 h2 h3
    · obtain ⟨_, hstat, hby, htgt, hused, hm, _⟩ :=
        best_candidate_sound scorer m st.2 source targets r hb
      have hstep : stage23_step scorer c m targets st source =
          (st.1 ++ [r],
            if c ≤ r.score.total_score then setAdd st.2 r.target_transaction.id
            else st.2) := by
        simp only [stage23_step, hb]
      rw [hstep]
      refine ih _ ?_ ?_ ?_
      · intro r' hr'
        rcases List.mem_append.mp hr' with hold | hnew
        · exact h1 r' hold
        · rcases List.mem_singleton.mp hnew with rfl
          exact ⟨hm, hstat, hby, htgt⟩
      · rw [List.filter_append, List.map_append]
        by_cases hc : c ≤ r.score.total_score
        · have hfr : [r].filter (fun r => decide (c ≤ r.score.total_score)) = [r] := by
            simp [hc]
          rw [hfr, List.nodup_append]
          refine ⟨h2, List.nodup_singleton _, ?_⟩
          intro a ha hb'
          rcases List.mem_map.mp ha with ⟨r', hr', rfl⟩
          have heq : r'.target_transaction.id = r.target_transaction.id :=
            List.mem_singleton.mp hb'
          have hr'mem := List.mem_of_mem_filter hr'
          have hr'c : c ≤ r'.score.total_score := by
            have := List.of_mem_filter hr'
            simpa using this
          apply hused
          rw [← heq]
          exact h3 r' hr'mem hr'c
        · have hfr : [r].filter (fun r => decide (c ≤ r.score.total_score)) = [] := by
            simp [hc]
          rw [hfr]
          simpa using h2
      · intro r' hr' hc'
        rcases List.mem_append.mp hr' with hold | hnew
        · by_cases hc : c ≤ r.score.total_score
          · rw [if_pos hc]
            exact mem_setAdd_of_mem _ (h3 r' hold hc')
          · rw [if_neg hc]
            exact h3 r' hold hc'
        · rcases List.mem_singleton.mp hnew with rfl
          rw [if_pos hc']
          exact mem_setAdd_self _ _

theorem classify_step_results (c m : ℚ) (st : RecState) (r : MatchResult) :
    (classify_step c m st r).results = st.results ++ [reclassify c m r] := by
  simp only [classify_step, reclassify]
  split
  · rfl
  · split <;> rfl

theorem classify_fold_results (c m : ℚ) :
    ∀ (rs : List MatchResult) (st : RecState),
    (rs.foldl (classify_step c m) st).results = st.results ++ rs.map (reclassify c m) := by
  intro rs
  induction rs with
  | nil => intro st; simp
  | cons r rest ih =>
    intro st
    rw [List.foldl_cons, ih, classify_step_results, List.map_cons]
    simp

theorem reclassify_target (c m : ℚ) (r : MatchResult) :
    (reclassify c m r).target_transaction = r.target_transaction := by
  simp only [reclassify]
  split
  · rfl
  · split <;> rfl

theorem filter_map_reclassify (c m : ℚ) :
    ∀ (rs : List MatchResult), (∀ r ∈ rs, r.status = .unmatched) →
    ((rs.map (reclassify c m)).filter (fun r => r.status == MatchStatus.matched)) =
      (rs.filter (fun r => decide (c ≤ r.score.total_score))).map (reclassify c m) := by
  intro rs
  induction rs with
  | nil => intro _; rfl
  | cons r rest ih =>
    intro hall
    have hstat := hall r (List.mem_cons_self _ _)
    rw [List.map_cons, List.filter_cons, List.filter_cons]
    by_cases hc : c ≤ r.score.total_score
    · have hrc : (reclassify c m r).status = MatchStatus.matched := by
        simp only [reclassify]
        rw [if_pos hc]
      rw [ih (fun x hx => hall x (List.mem_cons_of_mem _ hx))]
      simp [hrc, hc]
    · have hrc : ¬ (reclassify c m r).status = MatchStatus.matched := by
        simp only [reclassify]
        rw [if_neg hc]
        split
        · simp
        · rw [hstat]
          simp
      rw [ih (fun x hx => hall x (List.mem_cons_of_mem _ hx))]
      simp [hrc, hc]

end ReconciliationEngine

/-- **C4.**  No result the engine returns carries status `UNMATCHED`:
every returned `MatchResult` is `MATCHED` or `MANUAL_REVIEW` (for any
scorer, thresholds and inputs), and a source for which no candidate
reaches the manual-review threshold produces no result at all — its
fuzzy step is the identity. -/
theorem C4_no_unmatched_results (scorer)
    (confidence_threshold manual_review_threshold : ℚ)
    (sources targets : List NormalizedTransaction) :
    (∀ r ∈ (ReconciliationEngine.reconcileWith scorer confidence_threshold
        manual_review_threshold sources targets).1,
      r.status = .matched ∨ r.status = .manualReview) ∧
    (∀ (ts : List NormalizedTransaction) (st : List MatchResult × List String)
        (source : NormalizedTransaction),
      (∀ t ∈ ts, (scorer source t).total_score < manual_review_threshold) →
      ReconciliationEngine.stage23_step scorer confidence_threshold
        manual_review_threshold ts st source = st) := by
  constructor
  · intro r hr
    simp only [ReconciliationEngine.reconcileWith] at hr
    rw [ReconciliationEngine.classify_fold_results] at hr
    rcases List.mem_append.mp hr with h1 | h2
    · left
      simp only [ReconciliationEngine.stage1_exact_match] at h1
      refine ReconciliationEngine.stage1_results_status scorer _ sources ⟨[], [], []⟩
        ?_ r h1
      intro r' hr'
      exact absurd hr' (List.not_mem_nil r')
    · rcases List.mem_map.mp h2 with ⟨r0, hr0, rfl⟩
      simp only [ReconciliationEngine.stage23_fuzzy_match] at hr0
      obtain ⟨hm, _, _, _⟩ :=
        (ReconciliationEngine.stage23_fold_inv scorer confidence_threshold
          manual_review_threshold _ _ ([], []) (by simp) (by simp) (by simp)).1 r0 hr0
      by_cases hc : confidence_threshold ≤ r0.score.total_score
      · left
        simp only [ReconciliationEngine.reclassify]
        rw [if_pos hc]
      · right
        simp only [ReconciliationEngine.reclassify]
        rw [if_neg hc, if_pos hm]
  · intro ts st source hall
    have hbc : ReconciliationEngine.best_candidate scorer manual_review_threshold
        st.2 source ts = ⟨none, 0⟩ := by
      simp only [ReconciliationEngine.best_candidate]
      exact ReconciliationEngine.candidate_fold_const scorer manual_review_threshold
        st.2 source ts ⟨none, 0⟩ hall
    simp only [ReconciliationEngine.stage23_step, hbc]

/-- **C4, witness**: a confident run yields a `MATCHED` result, and a
source whose only candidate totals `0 < 0.5` leaves the fuzzy stage state
untouched. -/
theorem C4_no_unmatched_results_witness :
    (wFuzzyRes.status = .matched ∨ wFuzzyRes.status = .manualReview) ∧
    ReconciliationEngine.stage23_step (constScorer ⟨0, 0, 0, 0⟩) (85 / 100) (1 / 2)
      [wTgt] ([], []) wSrc = ([], []) :=
  ⟨(C4_no_unmatched_results (constScorer ⟨1, 1, 1, 1 / 10⟩) (85 / 100) (1 / 2)
      [wSrcNoRef] [wTgt]).1 wFuzzyRes (by decide),
   (C4_no_unmatched_results (constScorer ⟨0, 0, 0, 0⟩) (85 / 100) (1 / 2)
      [] [wTgt]).2 [wTgt] ([], []) wSrc (by decide)⟩

/-- **C1, counterexample.**  Two sources sharing the reference
`"REF-001"` both look the same target up in the Stage-1 index (which is
never pruned after a hit), and both are accepted: the run returns two
different `MATCHED` results carrying the same target `"T1"`, violating
the exclusivity invariant as stated. -/
theorem C1_exclusivity_counterexample :
    ((ReconciliationEngine.reconcile (85 / 100) (1 / 2) [wSrc, wSrc2] [wTgt]).1.map
      (fun r => (r.status, r.source_transaction.id, r.target_transaction.id))) =
      [(.matched, "S1", "T1"), (.matched, "S2", "T1")] := by
  decide

/-- **C1, amended.**  Exclusivity holds under the two injectivity
conditions the code actually relies on: when the upper-cased non-empty
references of the sources are pairwise distinct (so no two sources hit
the same Stage-1 index key) and the target ids are pairwise distinct,
no target id appears in two different `MATCHED` results of a run —
manual-review results remain free to share targets. -/
theorem C1_exclusivity_amended (scorer)
    (confidence_threshold manual_review_threshold : ℚ)
    (sources targets : List NormalizedTransaction)
    (hs : (ReconciliationEngine.srcKeys sources).Nodup)
    (ht : (targets.map (fun t => t.id)).Nodup) :
    (((ReconciliationEngine.reconcileWith scorer confidence_threshold
        manual_review_threshold sources targets).1.filter
      (fun r => r.status == MatchStatus.matched)).map
      (fun r => r.target_transaction.id)).Nodup := by
  obtain ⟨n1, m1⟩ := ReconciliationEngine.stage1_fold_inv scorer targets ht sources
    ⟨[], [], []⟩ hs (by simp) (by simp) (by simp)
  have s1 := ReconciliationEngine.stage1_results_status scorer
    (ReconciliationEngine.buildRefIndex targets) sources ⟨[], [], []⟩
    (by intro r hr; exact absurd hr (List.not_mem_nil r))
  have hst1eq : ReconciliationEngine.stage1_exact_match scorer sources targets =
      sources.foldl (ReconciliationEngine.stage1_step scorer
        (ReconciliationEngine.buildRefIndex targets)) ⟨[], [], []⟩ := rfl
  rw [← hst1eq] at n1 m1 s1
  obtain ⟨a2, n2⟩ := ReconciliationEngine.stage23_fold_inv scorer confidence_threshold
    manual_review_threshold
    (targets.filter (fun t => ¬ t.id ∈
      (ReconciliationEngine.stage1_exact_match scorer sources targets).matched_target_ids))
    (sources.filter (fun s => ¬ s.id ∈
      (ReconciliationEngine.stage1_exact_match scorer sources targets).matched_source_ids))
    ([], []) (by simp) (by simp) (by simp)
  have hfzeq : ReconciliationEngine.stage23_fuzzy_match scorer confidence_threshold
      manual_review_threshold
      (sources.filter (fun s => ¬ s.id ∈
        (ReconciliationEngine.stage1_exact_match scorer sources targets).matched_source_ids))
      (targets.filter (fun t => ¬ t.id ∈
        (ReconciliationEngine.stage1_exact_match scorer sources targets).matched_target_ids)) =
      ((sources.filter (fun s => ¬ s.id ∈
        (ReconciliationEngine.stage1_exact_match scorer sources targets).matched_source_ids)).foldl
        (ReconciliationEngine.stage23_step scorer confidence_threshold manual_review_threshold
          (targets.filter (fun t => ¬ t.id ∈
            (ReconciliationEngine.stage1_exact_match scorer sources targets).matched_target_ids)))
        ([], [])).1 := rfl
  rw [← hfzeq] at a2 n2
  have key : (ReconciliationEngine.reconcileWith scorer confidence_threshold
      manual_review_threshold sources targets).1 =
      (ReconciliationEngine.stage1_exact_match scorer sources targets).results ++
        (ReconciliationEngine.stage23_fuzzy_match scorer confidence_threshold
          manual_review_threshold
          (sources.filter (fun s => ¬ s.id ∈
            (ReconciliationEngine.stage1_exact_match scorer sources targets).matched_source_ids))
          (targets.filter (fun t => ¬ t.id ∈
            (ReconciliationEngine.stage1_exact_match scorer sources targets).matched_target_ids))).map
          (ReconciliationEngine.reclassify confidence_threshold manual_review_threshold) := by
    simp only [ReconciliationEngine.reconcileWith]
    rw [ReconciliationEngine.classify_fold_results]
  rw [key, List.filter_append, List.map_append]
  have hfilter1 : (ReconciliationEngine.stage1_exact_match scorer sources
      targets).results.filter (fun r => r.status == MatchStatus.matched) =
      (ReconciliationEngine.stage1_exact_match scorer sources targets).results := by
    rw [List.filter_eq_self]
    intro r hr
    simp [s1 r hr]
  have hfilter2 := ReconciliationEngine.filter_map_reclassify confidence_threshold
    manual_review_threshold
    (ReconciliationEngine.stage23_fuzzy_match scorer confidence_threshold
      manual_review_threshold
      (sources.filter (fun s => ¬ s.id ∈
        (ReconciliationEngine.stage1_exact_match scorer sources targets).matched_source_ids))
      (targets.filter (fun t => ¬ t.id ∈
        (ReconciliationEngine.stage1_exact_match scorer sources targets).matched_target_ids)))
    (fun r hr => ((a2 r hr).2.1))
  rw [hfilter1, hfilter2, List.map_map]
  have hmapeq : ∀ (rs : List MatchResult),
      rs.map ((fun r => r.target_transaction.id) ∘
        ReconciliationEngine.reclassify confidence_threshold manual_review_threshold) =
      rs.map (fun r => r.target_transaction.id) := by
    intro rs
    refine List.map_congr_left ?_
    intro r _
    simp [Function.comp, ReconciliationEngine.reclassify_target]
  rw [hmapeq]
  refine List.Nodup.append n1 n2 ?_
  intro a ha hb
  rcases List.mem_map.mp ha with ⟨r, hr, rfl⟩
  rcases List.mem_map.mp hb with ⟨r', hr', heq⟩
  have hmti := m1 r hr
  have hr'fz := List.mem_of_mem_filter hr'
  have htgt := (a2 r' hr'fz).2.2.2
  have hnot : ¬ r'.target_transaction.id ∈
      (ReconciliationEngine.stage1_exact_match scorer sources
        targets).matched_target_ids := by
    have := List.of_mem_filter htgt
    simpa using this
  apply hnot
  have heq' : r'.target_transaction.id = r.target_transaction.id := heq
  rw [heq']
  exact hmti

/-- **C1, amended — witness**: a concrete run with distinct source
reference keys and distinct target ids, under the engine's own scorer,
has pairwise-distinct targets among its `MATCHED` results. -/
theorem C1_exclusivity_amended_witness :
    (((ReconciliationEngine.reconcileWith ConfidenceScorer.calculate_score (85 / 100)
        (1 / 2) [wSrc] [wTgt]).1.filter
      (fun r => r.status == MatchStatus.matched)).map
      (fun r => r.target_transaction.id)).Nodup :=
  C1_exclusivity_amended ConfidenceScorer.calculate_score (85 / 100) (1 / 2)
    [wSrc] [wTgt] (by decide) (by decide)

end AccountingMVP
